import Mathlib

/-!
Verification of the URL normalization / parsing / feature-extraction /
decision pipeline of the phishing-URL detector.

Python strings are modelled as `List Char` (a sequence of Unicode scalar
values).  Pure Python functions become Lean functions; Python code that can
raise is modelled with `Option` (`none` = an exception escaped), and
`try/except` blocks become explicit `Option` eliminations.

Character-class predicates (`\w`, `str.lower`, `str.isdigit`) are modelled
on their ASCII fragment, which is exact for every character class the
verified claims exercise; the UTF-8 encode/decode round-trip in
`normalize_url` is the identity on sequences of Unicode scalar values and
is therefore not represented by a separate definition.
-/

/-- A Python `str` value: a sequence of Unicode scalar values. -/
abbrev PyStr := List Char

/-- Embed a Lean string literal as a `PyStr`. -/
def pys (s : String) : PyStr := s.data

/-- The characters removed by `normalize_url`'s regular expression
`[​-‍﻿­]` (zero-width space/joiner/non-joiner, BOM,
soft hyphen); `transformers.py` line 22. -/
def isInvisibleChar (c : Char) : Bool :=
  (0x200B ≤ c.toNat && c.toNat ≤ 0x200D) || c.toNat == 0xFEFF || c.toNat == 0x00AD

/-- Python's Unicode whitespace set, as used by `str.strip()`. -/
def pyIsSpace (c : Char) : Bool :=
  let n := c.toNat
  (9 ≤ n && n ≤ 13) || (28 ≤ n && n ≤ 32) || n == 0x85 || n == 0xA0 ||
  n == 0x1680 || (0x2000 ≤ n && n ≤ 0x200A) || n == 0x2028 || n == 0x2029 ||
  n == 0x202F || n == 0x205F || n == 0x3000

/-- `str.strip()`: drop leading and trailing whitespace. -/
def pyStrip (l : PyStr) : PyStr :=
  ((l.dropWhile pyIsSpace).reverse.dropWhile pyIsSpace).reverse

/-- Drop the invisible characters (the `re.sub` on line 22 of
`transformers.py`). -/
def removeInvisible (l : PyStr) : PyStr :=
  l.filter (fun c => !isInvisibleChar c)

/-- A regex `\w` word character (ASCII fragment: letters, digits, `_`). -/
def isWordChar (c : Char) : Bool := c.isAlphanum || c == '_'

/-- Whether the string matches `re.match(r'^\w+://', u)`: a non-empty run
of word characters followed immediately by `://`.  Because `:` is not a
word character, the greedy `\w+` is exactly the maximal leading run. -/
def hasWordScheme (l : PyStr) : Bool :=
  !(l.takeWhile isWordChar).isEmpty && ((l.dropWhile isWordChar).take 3 == pys "://")

/-- A value handed to `normalize_url`: either a Python `str` or any
non-string value (`None`, a float, ...), which `isinstance(u, str)`
rejects. -/
inductive PyValue where
  | str (s : PyStr)
  | nonstr

/-- The string part of `normalize_url` (`transformers.py` lines 22-30):
remove invisible characters, round-trip through UTF-8 (identity on scalar
values), strip whitespace, and prepend `http://` when no `\w+://` scheme
prefix is present.  An empty result is returned as-is. -/
def normalizeStr (s : PyStr) : PyStr :=
  let u := pyStrip (removeInvisible s)
  if u = [] then u
  else if hasWordScheme u then u
  else pys "http://" ++ u

/-- `normalize_url` (`transformers.py` lines 9-30): non-`str` input yields
the empty string (lines 20-21), otherwise `normalizeStr`. -/
def normalize_url : PyValue → PyStr
  | .str s => normalizeStr s
  | .nonstr => []

/-- `shannon_entropy` (`transformers.py` lines 33-47): `0.0` for the empty
string, otherwise `-sum(p * log2 p)` over the distinct characters, with
`p = s.count(c) / len(s)`.  `set(s)` is modelled by `List.dedup` (real
addition is commutative, so iteration order is irrelevant). -/
noncomputable def shannon_entropy (s : PyStr) : ℝ :=
  if s = [] then 0
  else
    -((s.dedup.map (fun c =>
        ((s.count c : ℝ) / (s.length : ℝ)) *
          Real.logb 2 ((s.count c : ℝ) / (s.length : ℝ)))).sum)

/-- Whether `pat` is a prefix of `l` (recursing on the pattern first, so
that an exhausted pattern succeeds without inspecting the rest of `l`). -/
def isPre (pat l : PyStr) : Bool :=
  match pat with
  | [] => true
  | a :: as =>
    match l with
    | [] => false
    | b :: bs => a == b && isPre as bs

/-- Split at the first occurrence of the (non-empty) pattern `pat`,
returning the text before and after it: Python `l.split(pat, 1)` when it
produces two pieces, `none` when `pat` does not occur. -/
def splitFirst (pat : PyStr) : PyStr → Option (PyStr × PyStr)
  | [] => if pat = [] then some ([], []) else none
  | a :: rest =>
    if isPre pat (a :: rest) then some ([], (a :: rest).drop pat.length)
    else (splitFirst pat rest).map (fun p => (a :: p.1, p.2))

/-- Python substring test `pat in l` (for non-empty `pat`). -/
def containsSub (pat l : PyStr) : Bool := (splitFirst pat l).isSome

/-- The text before the first occurrence of `c` (the whole string when `c`
is absent): `l.partition(c)[0]`, and `l.split(c, 1)[0]`. -/
def beforeFirst (c : Char) (l : PyStr) : PyStr :=
  l.takeWhile (fun a => a != c)

/-- The text after the first occurrence of `c` (empty when `c` is absent):
`l.partition(c)[2]`. -/
def afterFirst (c : Char) (l : PyStr) : PyStr :=
  (l.dropWhile (fun a => a != c)).drop 1

/-- Python `l.split(c)` for a single-character separator: the list of
chunks between occurrences of `c` (`"".split(c) == ['']`). -/
def splitCh (c : Char) : PyStr → List PyStr
  | [] => [[]]
  | a :: t =>
    match splitCh c t with
    | [] => [[]]
    | g :: gs => if a == c then [] :: g :: gs else (a :: g) :: gs

/-- `str.lower()` (ASCII fragment; `Char.toLower` lower-cases `A`-`Z` and
fixes every other scalar value). -/
def pyLower (l : PyStr) : PyStr := l.map Char.toLower

/-- One of the two bracket characters, for `host.strip("[]")`. -/
def isBracketChar (c : Char) : Bool := c == '[' || c == ']'

/-- Python `host.strip("[]")`: drop leading and trailing `[` / `]`
characters (any number, in any order). -/
def stripBrackets (l : PyStr) : PyStr :=
  ((l.dropWhile isBracketChar).reverse.dropWhile isBracketChar).reverse

/-- An ASCII hexadecimal digit (`ipaddress._HEX_DIGITS`). -/
def isHexChar (c : Char) : Bool :=
  c.isDigit || ('a' ≤ c && c ≤ 'f') || ('A' ≤ c && c ≤ 'F')

/-- The numeric value of a string of ASCII decimal digits. -/
def natOfDigits (l : PyStr) : ℕ :=
  l.foldl (fun acc c => acc * 10 + (c.toNat - 48)) 0

/-- Validity of one dotted-decimal octet per
`ipaddress.IPv4Address._parse_octet`: non-empty, ASCII digits only, at
most 3 characters, no leading zero, value at most 255. -/
def isIPv4Octet (o : PyStr) : Bool :=
  !o.isEmpty && o.all Char.isDigit && o.length ≤ 3 &&
  (o.length == 1 || o.headD ' ' != '0') &&
  natOfDigits o ≤ 255

/-- Whether `ipaddress.IPv4Address(l)` succeeds: exactly four
dot-separated valid octets. -/
def isIPv4Str (l : PyStr) : Bool :=
  let parts := splitCh '.' l
  parts.length == 4 && parts.all isIPv4Octet

/-- Validity of one IPv6 hextet per
`ipaddress.IPv6Address._parse_hextet`: non-empty, hex digits only, at most
4 characters. -/
def isHextetStr (h : PyStr) : Bool :=
  !h.isEmpty && h.all isHexChar && h.length ≤ 4

/-- The group-level checks of `ipaddress.IPv6Address._ip_int_from_string`
after the optional embedded-IPv4 rewrite: at most 9 colon-separated parts,
at most one interior empty part (the `::`), a leading/trailing empty part
only next to the `::`, at least one group actually skipped by `::` (or
exactly 8 groups when there is no `::`), and every retained part a valid
hextet. -/
def ipv6GroupsOk (parts : List PyStr) : Bool :=
  if parts.length > 9 then false
  else
    let n := parts.length
    let skips := (parts.enum.filter
      (fun p => decide (0 < p.1) && decide (p.1 + 1 < n) && p.2.isEmpty)).map Prod.fst
    match skips with
    | [] =>
      n == 8 && !(parts.headD [' ']).isEmpty && !(parts.getLastD [' ']).isEmpty &&
        parts.all isHextetStr
    | [i] =>
      let headEmpty := (parts.headD [' ']).isEmpty
      let lastEmpty := (parts.getLastD [' ']).isEmpty
      if headEmpty && i - 1 != 0 then false
      else if lastEmpty && (n - i - 1) - 1 != 0 then false
      else
        let hi := if headEmpty then i - 1 else i
        let lo := if lastEmpty then (n - i - 1) - 1 else n - i - 1
        if hi + lo ≥ 8 then false
        else (parts.take hi).all isHextetStr && (parts.drop (n - lo)).all isHextetStr
    | _ => false

/-- Whether `ipaddress.IPv6Address(l)` succeeds, ignoring any `%scope`
suffix (handled in `isIPv6Str`): at least 3 colon-separated parts, an
optional trailing embedded dotted-decimal IPv4 (replaced by two synthetic
hextets), then the group checks. -/
def isIPv6NoScope (l : PyStr) : Bool :=
  let parts := splitCh ':' l
  if parts.length < 3 then false
  else
    let lastP := parts.getLastD []
    if lastP.contains '.' then
      if isIPv4Str lastP then ipv6GroupsOk (parts.dropLast ++ [['0'], ['0']]) else false
    else ipv6GroupsOk parts

/-- Whether `ipaddress.IPv6Address(l)` succeeds: an optional `%scope_id`
suffix (non-empty, itself free of `%`) is split off first. -/
def isIPv6Str (l : PyStr) : Bool :=
  match splitFirst [ '%' ] l with
  | some (addr, scope) => !scope.isEmpty && !scope.contains '%' && isIPv6NoScope addr
  | none => isIPv6NoScope l

/-- Whether `ipaddress.ip_address(l)` succeeds on a string: an IPv4 or an
IPv6 literal. -/
def is_ip (l : PyStr) : Bool := isIPv4Str l || isIPv6Str l

/-- A character allowed in a URI scheme (`urllib.parse.scheme_chars`):
ASCII letters, digits, `+`, `-`, `.`. -/
def isSchemeChar (c : Char) : Bool :=
  c.isAlphanum || c == '+' || c == '-' || c == '.'

/-- Not one of the netloc delimiters `/`, `?`, `#`
(`urllib.parse._splitnetloc`). -/
def notNetlocDelim (c : Char) : Bool := !(c == '/' || c == '?' || c == '#')

/-- `urllib.parse`'s bracketed-host inner text:
`netloc.partition('[')[2].partition(']')[0]`. -/
def bracketedHostOf (netloc : PyStr) : PyStr :=
  beforeFirst ']' (afterFirst '[' netloc)

/-- `urllib.parse._check_bracketed_host`: a bracketed host must be an
IPvFuture literal (`v` + hex digits + `.` + non-empty remainder) or an
IPv6 (not IPv4) address. -/
def checkBracketedHost (h : PyStr) : Bool :=
  match h with
  | 'v' :: t =>
    let hx := t.takeWhile isHexChar
    !hx.isEmpty &&
      (match t.drop hx.length with
       | '.' :: r => !r.isEmpty && !r.contains '\n'
       | _ => false)
  | _ => if isIPv4Str h then false else isIPv6Str h

/-- The result of `urllib.parse.urlsplit`. -/
structure SplitResult where
  scheme : PyStr
  netloc : PyStr
  path : PyStr
  query : PyStr
  fragment : PyStr
deriving DecidableEq, Repr

/-- `urllib.parse.urlsplit` (CPython 3.11+): remove tab/CR/LF, detect and
lower-case a scheme (first character an ASCII letter, all characters from
`scheme_chars`, a `:` present after them), split the `//netloc` up to the
first `/`, `?` or `#`, reject mismatched or invalid bracketed hosts
(`ValueError`, modelled as `none`), then split off the fragment at the
first `#` and the query at the first `?`.  The NFKC `_checknetloc` guard
only concerns non-ASCII netlocs and is modelled as always passing. -/
def urlsplitAttempt (url0 : PyStr) : Option SplitResult :=
  let url1 := url0.filter (fun c => !(c == '\t' || c == '\r' || c == '\n'))
  let pre := url1.takeWhile (fun c => c != ':')
  let schemeOk := url1.contains ':' && !pre.isEmpty &&
    (pre.headD ' ').isAlpha && pre.all isSchemeChar
  let scheme := if schemeOk then pyLower pre else []
  let rest := if schemeOk then url1.drop (pre.length + 1) else url1
  let netloc := if rest.take 2 == pys "//" then (rest.drop 2).takeWhile notNetlocDelim else []
  let rest2 := if rest.take 2 == pys "//" then (rest.drop 2).dropWhile notNetlocDelim else rest
  if netloc.contains '[' != netloc.contains ']' then none
  else if netloc.contains '[' && netloc.contains ']' &&
      !checkBracketedHost (bracketedHostOf netloc) then none
  else
    let fragment := if rest2.contains '#' then afterFirst '#' rest2 else []
    let rest3 := if rest2.contains '#' then beforeFirst '#' rest2 else rest2
    let query := if rest3.contains '?' then afterFirst '?' rest3 else []
    let path := if rest3.contains '?' then beforeFirst '?' rest3 else rest3
    some ⟨scheme, netloc, path, query, fragment⟩

/-- The result of `urllib.parse.urlparse` (also the shape returned by
`parse_url` in `transformers.py`). -/
structure ParseResult where
  scheme : PyStr
  netloc : PyStr
  path : PyStr
  params : PyStr
  query : PyStr
  fragment : PyStr
deriving DecidableEq, Repr

/-- The schemes for which `urlparse` splits `;params` from the path
(`urllib.parse.uses_params`). -/
def usesParamsSchemes : List PyStr :=
  [pys "", pys "ftp", pys "hdl", pys "prospero", pys "http", pys "imap",
   pys "https", pys "shttp", pys "rtsp", pys "rtspu", pys "sip", pys "sips",
   pys "mms", pys "sftp", pys "tel"]

/-- `urllib.parse._splitparams`, called with `;` known to occur in `url`:
split at the first `;` of the last `/`-segment (or of the whole string
when there is no `/`); when that segment has no `;`, return the string
unchanged with empty params. -/
def splitparams (url : PyStr) : PyStr × PyStr :=
  if url.contains '/' then
    let seg := (url.reverse.takeWhile (fun c => c != '/')).reverse
    if seg.contains ';' then
      (url.take (url.length - seg.length) ++ beforeFirst ';' seg, afterFirst ';' seg)
    else (url, [])
  else (beforeFirst ';' url, afterFirst ';' url)

/-- `urllib.parse.urlparse`: `urlsplit`, then the params split. -/
def urlparseAttempt (url : PyStr) : Option ParseResult :=
  match urlsplitAttempt url with
  | none => none
  | some sr =>
    if usesParamsSchemes.contains sr.scheme && sr.path.contains ';' then
      let pp := splitparams sr.path
      some ⟨sr.scheme, sr.netloc, pp.1, pp.2, sr.query, sr.fragment⟩
    else some ⟨sr.scheme, sr.netloc, sr.path, [], sr.query, sr.fragment⟩

/-- The all-empty `ParseResult` sentinel returned by `parse_url` on any
internal exception (`transformers.py` line 74). -/
def emptyParse : ParseResult := ⟨[], [], [], [], [], []⟩

/-- The IP-branch netloc of `parse_url` (`transformers.py` lines 66-67):
wrap the host in brackets when it contains `:` and does not already start
with `[`. -/
def bracketHost (host : PyStr) : PyStr :=
  if host.contains ':' && !(host.headD ' ' == '[') then '[' :: (host ++ [']']) else host

/-- `parse_url` before its outer `except` (`transformers.py` lines 61-72):
normalize, split at `://` (an `IndexError` — `none` — when absent), take
the candidate host up to the first `/`; if it is an IP literal (brackets
stripped), return the IP-branch `ParseResult`, otherwise fall back to
`urlparse` (whose `ValueError`s surface as `none`). -/
def parse_url_attempt (x : PyValue) : Option ParseResult :=
  let url := normalize_url x
  match splitFirst (pys "://") url with
  | none => none
  | some (before, after) =>
    let host := beforeFirst '/' after
    if is_ip (stripBrackets host) then
      some ⟨before, bracketHost host, [], [], [], []⟩
    else urlparseAttempt url

/-- `parse_url` (`transformers.py` lines 50-74): any internal exception is
swallowed and the all-empty sentinel returned. -/
def parse_url (x : PyValue) : ParseResult :=
  (parse_url_attempt x).getD emptyParse

/-- A numeric cell of the feature `DataFrame`: Python ints or floats. -/
inductive PyNum where
  | int (n : ℤ)
  | float (r : ℝ)

/-- `URLFeatureExtractor.suspicious_keywords` (`transformers.py` lines
86-87). -/
def suspicious_keywords : List PyStr :=
  [pys "login", pys "secure", pys "verify", pys "update", pys "bank",
   pys "account", pys "free", pys "bonus", pys "click", pys "win"]

/-- The suspicious TLD suffixes of `has_suspicious_tld`
(`transformers.py` line 134). -/
def suspicious_tld_suffixes : List PyStr :=
  [pys ".xyz", pys ".top", pys ".gq", pys ".tk", pys ".ml", pys ".icu", pys ".cn"]

/-- `URLFeatureExtractor.feature_names_` (`transformers.py` lines 89-94):
the 14 column names, in the column order of the returned `DataFrame`. -/
def feature_names : List String :=
  ["url_length", "num_digits", "num_special_chars", "num_subdomains",
   "has_ip", "num_slashes", "domain_length", "has_suspicious_keyword",
   "has_suspicious_tld", "domain_entropy", "num_query_params",
   "query_length", "has_https", "has_at_symbol"]

/-- The per-URL feature dict `f` built by `URLFeatureExtractor.transform`
(`transformers.py` lines 114-152), in Python dict insertion order:
thirteen entries from the literal, then `has_ip` appended (its
`ip_address` `ValueError` handler making it 0). -/
noncomputable def rawFeatureDict (url : PyStr) : List (String × PyNum) :=
  let parsed := parse_url (.str url)
  let domain := pyLower parsed.netloc
  let path := pyLower parsed.path
  let query := parsed.query
  [("url_length", .int url.length),
   ("num_digits", .int (url.countP Char.isDigit)),
   ("num_special_chars", .int (url.countP
      (fun c => c == '@' || c == '?' || c == '=' || c == '&' || c == '%'))),
   ("num_subdomains", .int (max ((domain.count '.' : ℤ) - 1) 0)),
   ("num_slashes", .int (url.count '/')),
   ("domain_length", .int domain.length),
   ("has_suspicious_keyword", .int (if suspicious_keywords.any
      (fun kw => containsSub kw (domain ++ path)) then 1 else 0)),
   ("has_suspicious_tld", .int (if suspicious_tld_suffixes.any
      (fun suf => suf.isSuffixOf domain) then 1 else 0)),
   ("domain_entropy", .float (shannon_entropy domain)),
   ("num_query_params", .int (query.count '=')),
   ("query_length", .int query.length),
   ("has_https", .int (if parsed.scheme == pys "https" then 1 else 0)),
   ("has_at_symbol", .int (if url.contains '@' then 1 else 0)),
   ("has_ip", .int (if is_ip (stripBrackets domain) then 1 else 0))]

/-- One row of `pd.DataFrame(features, columns=self.feature_names_)`: the
dict entries selected and ordered by `feature_names_` (every name is
present in the dict, so the default is never used). -/
noncomputable def featureRow (url : PyStr) : List (String × PyNum) :=
  feature_names.map (fun n => (n, ((rawFeatureDict url).lookup n).getD (.float 0)))

/-- The argument `X` of `URLFeatureExtractor.transform`
(`transformers.py` line 111): a bare Python string is none of
`list`/`ndarray`/`Series`, so `X['url']` raises `TypeError`; a sequence is
used as-is; a `DataFrame` contributes its `url` column. -/
inductive XInput where
  | pystr (s : PyStr)
  | seq (urls : List PyStr)
  | frame (urls : List PyStr)

/-- `URLFeatureExtractor.transform` (`transformers.py` lines 102-154),
with `none` modelling the `TypeError` raised by `X['url']` on a bare
string input. -/
noncomputable def transform : XInput → Option (List (List (String × PyNum)))
  | .pystr _ => none
  | .seq urls => some (urls.map featureRow)
  | .frame urls => some (urls.map featureRow)

/-- Strip one leading `www.` from a domain (`api.py` lines 54-55 and
154-155). -/
def stripWWW (d : PyStr) : PyStr :=
  if (pys "www.").isPrefixOf d then d.drop 4 else d

/-- The trusted-domain test of `postprocess_prediction` (`api.py` line 57)
and of `explain` (`api.py` line 157):
`any(domain == td or domain.endswith("." + td) for td in TRUSTED_DOMAINS)`. -/
def trustedMatch (trusted : List PyStr) (domain : PyStr) : Bool :=
  trusted.any (fun td => domain == td || ('.' :: td).isSuffixOf domain)

/-- The full host preprocessing applied before the trusted test:
lower-case the netloc, strip one leading `www.` (`api.py` lines 53-55). -/
def processHost (host : PyStr) : PyStr := stripWWW (pyLower host)

/-- The trust decision on a raw host string: preprocess, then match. -/
def trustedTest (trusted : List PyStr) (host : PyStr) : Bool :=
  trustedMatch trusted (processHost host)

/-- `postprocess_prediction` (`api.py` lines 39-64), with the injected
`TRUSTED_DOMAINS` list and threshold as parameters and probabilities as
rationals; `none` models the `ValueError` that `urlparse` raises on a
malformed bracketed netloc escaping the (handler-free) function. -/
def postprocess_prediction (trusted : List PyStr) (url : PyStr)
    (proba threshold : ℚ) : Option (ℤ × String × ℚ × ℚ × Bool) :=
  match urlparseAttempt url with
  | none => none
  | some parsed =>
    let domain := stripWWW (pyLower parsed.netloc)
    if trustedMatch trusted domain then some (0, "safe", proba, threshold, true)
    else
      let pred : ℤ := if proba ≥ threshold then 1 else 0
      some (pred, if pred == 1 then "phishing" else "safe", proba, threshold, false)

/-- The domain used by the `explain` endpoint (`api.py` lines 152-155):
`urlparse(url).netloc.lower()` with one leading `www.` stripped (`none`
when `urlparse` raises). -/
def explainDomain (url : PyStr) : Option PyStr :=
  (urlparseAttempt url).map (fun parsed => stripWWW (pyLower parsed.netloc))

/-- The `num_subdomains` heuristic value of `explain` (`api.py` line 168):
`len(domain.split(".")) - 2 if "." in domain else 0`. -/
def numSubdomainsExplain (domain : PyStr) : ℤ :=
  if domain.contains '.' then ((splitCh '.' domain).length : ℤ) - 2 else 0

/-- `colorize("num_subdomains", value)` (`api.py` lines 187-188). -/
def colorizeNumSubdomains (v : ℤ) : String :=
  if v ≤ 2 then "green" else "red"

/-- A character admitted in a netloc by `is_valid_url_or_ip`'s regex
`^[A-Za-z0-9\.\-\[\]:]+$` (`ui/utils.py` line 61). -/
def validNetlocChar (c : Char) : Bool :=
  c.isAlphanum || c == '.' || c == '-' || c == '[' || c == ']' || c == ':'

/-- `is_valid_url_or_ip` (`ui/utils.py` lines 27-66): reject blank input;
accept bare IP literals (brackets stripped); otherwise add a scheme when
the `^\w+://` match fails, parse, and require an http/https scheme and a
non-empty netloc of admissible characters without spaces (any `urlparse`
exception yields `False`). -/
def is_valid_url_or_ip (u0 : PyStr) : Bool :=
  if u0 = [] || pyStrip u0 = [] then false
  else
    let u := pyStrip u0
    if is_ip (stripBrackets u) then true
    else
      let u2 := if hasWordScheme u then u else pys "http://" ++ u
      match urlparseAttempt u2 with
      | none => false
      | some r =>
        if !(r.scheme == pys "http" || r.scheme == pys "https") then false
        else if r.netloc = [] then false
        else if r.netloc.contains ' ' then false
        else if !(r.netloc.all validNetlocChar) then false
        else true

/-- `is_plausible_url` (`ui/utils.py` lines 69-88), with the injected
`VALID_TLDS` set as a parameter: require a netloc containing a dot whose
last dot-label is a known TLD and which contains at least one ASCII Latin
letter (`re.search(r"[a-zA-Z]", domain)`); any exception yields `False`. -/
def is_plausible_url (tlds : List PyStr) (url : PyStr) : Bool :=
  match urlparseAttempt url with
  | none => false
  | some parsed =>
    let domain := pyLower parsed.netloc
    if domain = [] || !domain.contains '.' then false
    else
      let tld := (splitCh '.' domain).getLastD []
      if !(tlds.contains tld) then false
      else domain.any Char.isAlpha

/-- The outcome of the guard chain shared by the `/predict` and
`/explain` endpoints. -/
inductive GuardOutcome where
  | rejected (status : ℕ)
  | accepted (url : PyStr)
deriving DecidableEq

/-- The guard chain run by `/predict` (`api.py` lines 84-90) and
`/explain` (`api.py` lines 143-149) before the classification pipeline:
normalize, reject blank, invalid, or implausible URLs with HTTP 400;
otherwise hand the normalized URL to the pipeline. -/
def predictGuard (tlds : List PyStr) (x : PyValue) : GuardOutcome :=
  let url := normalize_url x
  if pyStrip url = [] then .rejected 400
  else if !is_valid_url_or_ip url then .rejected 400
  else if !is_plausible_url tlds url then .rejected 400
  else .accepted url

/-! ## Helper lemmas -/

/-- `dropWhile` is the identity when the head does not satisfy the
predicate. -/
theorem dropWhile_eq_self_of_head (p : Char → Bool) (l : PyStr)
    (h : ∀ a, l.head? = some a → p a = false) : l.dropWhile p = l := by
  cases l with
  | nil => rfl
  | cons a t =>
    have ha := h a rfl
    simp [List.dropWhile_cons, ha]

/-- The head of a `dropWhile` result does not satisfy the predicate. -/
theorem head_dropWhile_false (p : Char → Bool) :
    ∀ (l : PyStr) (a : Char), (l.dropWhile p).head? = some a → p a = false := by
  intro l
  induction l with
  | nil => intro a h; simp [List.dropWhile] at h
  | cons b t ih =>
    intro a h
    cases hb : p b with
    | true => rw [List.dropWhile_cons, if_pos hb] at h; exact ih a h
    | false =>
      rw [List.dropWhile_cons, if_neg (by simp [hb])] at h
      simp at h
      exact h ▸ hb

/-- The first character of a stripped string is not whitespace. -/
theorem pyStrip_head_not_space (l : PyStr) (a : Char)
    (h : (pyStrip l).head? = some a) : pyIsSpace a = false := by
  unfold pyStrip at h
  rw [List.head?_reverse] at h
  obtain ⟨t, ht⟩ := List.dropWhile_suffix
    (l := (l.dropWhile pyIsSpace).reverse) (p := pyIsSpace)
  have hx : (l.dropWhile pyIsSpace).reverse.getLast? = some a := by
    rw [← ht, List.getLast?_append, h]; rfl
  rw [List.getLast?_reverse] at hx
  exact head_dropWhile_false pyIsSpace l a hx

/-- The last character of a stripped string is not whitespace. -/
theorem pyStrip_getLast_not_space (l : PyStr) (a : Char)
    (h : (pyStrip l).getLast? = some a) : pyIsSpace a = false := by
  unfold pyStrip at h
  rw [List.getLast?_reverse] at h
  exact head_dropWhile_false pyIsSpace _ a h

/-- Stripping is the identity on a string whose two ends are not
whitespace. -/
theorem pyStrip_eq_self (l : PyStr)
    (h1 : ∀ a, l.head? = some a → pyIsSpace a = false)
    (h2 : ∀ a, l.getLast? = some a → pyIsSpace a = false) : pyStrip l = l := by
  unfold pyStrip
  rw [dropWhile_eq_self_of_head _ _ h1]
  rw [dropWhile_eq_self_of_head _ _ (fun a ha => h2 a (by rw [← List.head?_reverse]; exact ha))]
  exact List.reverse_reverse l

/-- `removeInvisible` fixes strings without invisible characters. -/
theorem removeInvisible_eq_self (l : PyStr)
    (h : ∀ c ∈ l, isInvisibleChar c = false) : removeInvisible l = l :=
  List.filter_eq_self.mpr (fun a ha => by simp [h a ha])

/-- Every character of `pyStrip l` is a character of `l`. -/
theorem mem_pyStrip (l : PyStr) (c : Char) (h : c ∈ pyStrip l) : c ∈ l := by
  unfold pyStrip at h
  rw [List.mem_reverse] at h
  have h2 := (List.dropWhile_suffix (p := pyIsSpace)).sublist.mem h
  rw [List.mem_reverse] at h2
  exact (List.dropWhile_suffix (p := pyIsSpace)).sublist.mem h2

/-- Characters surviving `removeInvisible` are not invisible. -/
theorem mem_removeInvisible_not (l : PyStr) (c : Char)
    (h : c ∈ removeInvisible l) : isInvisibleChar c = false := by
  unfold removeInvisible at h
  have := List.of_mem_filter h
  simpa using this

/-- Prepending `http://` always produces a `\w+://` match. -/
theorem hasWordScheme_http (u : PyStr) : hasWordScheme (pys "http://" ++ u) = true := rfl

/-- The output of `normalizeStr` contains no invisible characters. -/
theorem normalizeStr_no_invisible (s : PyStr) (c : Char)
    (h : c ∈ normalizeStr s) : isInvisibleChar c = false := by
  unfold normalizeStr at h
  by_cases h0 : pyStrip (removeInvisible s) = []
  · rw [if_pos h0] at h; simp [h0] at h
  · rw [if_neg h0] at h
    by_cases h1 : hasWordScheme (pyStrip (removeInvisible s)) = true
    · rw [if_pos h1] at h
      exact mem_removeInvisible_not s c (mem_pyStrip _ c h)
    · rw [if_neg h1] at h
      rcases List.mem_append.mp h with hl | hr
      · have hall : ∀ c ∈ pys "http://", isInvisibleChar c = false := by decide
        exact hall c hl
      · exact mem_removeInvisible_not s c (mem_pyStrip _ c hr)

/-- The output of `normalizeStr` has no leading or trailing whitespace. -/
theorem normalizeStr_stripped (s : PyStr) :
    (∀ a, (normalizeStr s).head? = some a → pyIsSpace a = false) ∧
    (∀ a, (normalizeStr s).getLast? = some a → pyIsSpace a = false) := by
  unfold normalizeStr
  by_cases h0 : pyStrip (removeInvisible s) = []
  · rw [if_pos h0]
    constructor <;> intro a ha <;> rw [h0] at ha <;> simp at ha
  · rw [if_neg h0]
    by_cases h1 : hasWordScheme (pyStrip (removeInvisible s)) = true
    · rw [if_pos h1]
      exact ⟨pyStrip_head_not_space _, pyStrip_getLast_not_space _⟩
    · rw [if_neg h1]
      constructor
      · intro a ha
        simp [pys] at ha
        rw [← ha]; decide
      · intro a ha
        rw [List.getLast?_append] at ha
        cases hW : (pyStrip (removeInvisible s)).getLast? with
        | none =>
          rw [List.getLast?_eq_none_iff] at hW
          exact absurd hW h0
        | some g =>
          rw [hW] at ha
          simp at ha
          rw [ha] at hW
          exact pyStrip_getLast_not_space _ a hW

/-- `normalizeStr` fixes any string that is already clean, stripped, and
either empty or scheme-prefixed. -/
theorem normalizeStr_fixes (t : PyStr) (hinv : removeInvisible t = t)
    (hstr : pyStrip t = t) (hts : t = [] ∨ hasWordScheme t = true) :
    normalizeStr t = t := by
  show (if pyStrip (removeInvisible t) = [] then pyStrip (removeInvisible t)
        else if hasWordScheme (pyStrip (removeInvisible t)) then pyStrip (removeInvisible t)
        else pys "http://" ++ pyStrip (removeInvisible t)) = t
  rw [hinv, hstr]
  rcases hts with h | h
  · rw [if_pos h]
  · by_cases h0 : t = []
    · rw [if_pos h0]
    · rw [if_neg h0, if_pos h]

/-- One pass of `normalizeStr` fixes its own output. -/
theorem normalizeStr_idem (s : PyStr) :
    normalizeStr (normalizeStr s) = normalizeStr s := by
  apply normalizeStr_fixes
  · exact removeInvisible_eq_self _ (normalizeStr_no_invisible s)
  · exact pyStrip_eq_self _ (normalizeStr_stripped s).1 (normalizeStr_stripped s).2
  · by_cases h0 : pyStrip (removeInvisible s) = []
    · left; unfold normalizeStr; rw [if_pos h0, h0]
    · right
      by_cases h1 : hasWordScheme (pyStrip (removeInvisible s)) = true
      · have ht : normalizeStr s = pyStrip (removeInvisible s) := by
          unfold normalizeStr; rw [if_neg h0, if_pos h1]
        rw [ht]; exact h1
      · have ht : normalizeStr s = pys "http://" ++ pyStrip (removeInvisible s) := by
          unfold normalizeStr; rw [if_neg h0, if_neg h1]
        rw [ht]; exact hasWordScheme_http _

/-- C1: normalization is idempotent — for every input value `x` (textual
or not), `normalize_url (normalize_url x) = normalize_url x`. -/
theorem normalize_url_idempotent (x : PyValue) :
    normalize_url (.str (normalize_url x)) = normalize_url x := by
  cases x with
  | str s => exact normalizeStr_idem s
  | nonstr => decide

/-- C2: `parse_url` is total.  Whenever an exception occurs internally
(`parse_url_attempt` is `none`), the all-empty `ParseResult` sentinel is
returned; any input normalizing to the empty string (in particular the
empty string itself, whose `split("://", 1)[1]` raises `IndexError`)
yields the sentinel; and the sentinel has every component empty. -/
theorem parse_url_exception_sentinel :
    (∀ s : PyStr, parse_url_attempt (.str s) = none → parse_url (.str s) = emptyParse) ∧
    (∀ s : PyStr, normalizeStr s = [] → parse_url (.str s) = emptyParse) ∧
    parse_url (.str []) = emptyParse ∧
    emptyParse.scheme = [] ∧ emptyParse.netloc = [] ∧ emptyParse.path = [] ∧
    emptyParse.params = [] ∧ emptyParse.query = [] ∧ emptyParse.fragment = [] := by
  have hnone : ∀ s : PyStr, parse_url_attempt (.str s) = none →
      parse_url (.str s) = emptyParse := by
    intro s h
    unfold parse_url
    rw [h]
    rfl
  refine ⟨hnone, ?_, by decide, rfl, rfl, rfl, rfl, rfl, rfl⟩
  intro s h
  apply hnone
  unfold parse_url_attempt
  simp only [normalize_url]
  rw [h]
  rfl

/-- Witness for C2: the empty string and a whitespace-only string reach
the sentinel through the two hypotheses of the theorem. -/
theorem parse_url_exception_sentinel_witness :
    parse_url (.str []) = emptyParse ∧ parse_url (.str (pys "   ")) = emptyParse :=
  ⟨parse_url_exception_sentinel.1 [] (by decide),
   parse_url_exception_sentinel.2.1 (pys "   ") (by decide)⟩

/-- Splitting a `http://`-prepended string at `://` recovers the default
scheme text and the remainder. -/
theorem splitFirst_http (u : PyStr) :
    splitFirst (pys "://") (pys "http://" ++ u) = some (pys "http", u) := rfl

/-- C7: when the candidate host of the normalized URL (the text between
`://` and the first following `/`) is an IP literal once enclosing
brackets are stripped, `parse_url` returns the scheme text before `://`,
the candidate host bracket-wrapped whenever it contains `:` and does not
already start with `[`, and empty path, params, query and fragment — even
when the input contained a path or query.  When the scheme was defaulted
by normalization, that scheme text is `http`. -/
theorem parse_url_ip_literal (s before after : PyStr)
    (hsplit : splitFirst (pys "://") (normalizeStr s) = some (before, after))
    (hip : is_ip (stripBrackets (beforeFirst '/' after)) = true) :
    parse_url (.str s) =
      ⟨before, bracketHost (beforeFirst '/' after), [], [], [], []⟩ ∧
    (hasWordScheme (pyStrip (removeInvisible s)) = false → before = pys "http") := by
  constructor
  · unfold parse_url parse_url_attempt
    simp only [normalize_url]
    rw [hsplit]
    simp [hip]
  · intro hws
    by_cases h0 : pyStrip (removeInvisible s) = []
    · exfalso
      have ht : normalizeStr s = [] := by unfold normalizeStr; rw [if_pos h0, h0]
      have hn : splitFirst (pys "://") (normalizeStr s) = none := by rw [ht]; rfl
      rw [hn] at hsplit
      exact Option.noConfusion hsplit
    · have ht : normalizeStr s = pys "http://" ++ pyStrip (removeInvisible s) := by
        unfold normalizeStr; rw [if_neg h0, if_neg (by simp [hws])]
      rw [ht, splitFirst_http] at hsplit
      simp at hsplit
      exact hsplit.1.symm

/-- Witness for C7: an IPv6 literal with a path and query (the netloc is
bracket-wrapped, the path and query are discarded) and a bare IPv4
literal with defaulted scheme. -/
theorem parse_url_ip_literal_witness :
    parse_url (.str (pys "2001:db8::1/path?q=1")) =
      ⟨pys "http", pys "[2001:db8::1]", [], [], [], []⟩ ∧
    parse_url (.str (pys "192.168.0.1")) =
      ⟨pys "http", pys "192.168.0.1", [], [], [], []⟩ := by
  constructor
  · have h := (parse_url_ip_literal (pys "2001:db8::1/path?q=1") (pys "http")
      (pys "2001:db8::1/path?q=1") (by decide) (by decide)).1
    exact h.trans (by decide)
  · have h := (parse_url_ip_literal (pys "192.168.0.1") (pys "http")
      (pys "192.168.0.1") (by decide) (by decide)).1
    exact h.trans (by decide)

/-- A `\w+://` match decomposes the string as scheme ++ `://` ++ rest. -/
theorem hasWordScheme_decomp (l : PyStr) (h : hasWordScheme l = true) :
    ∃ w rest, w ≠ [] ∧ (∀ c ∈ w, isWordChar c = true) ∧
      l = w ++ (pys "://" ++ rest) := by
  unfold hasWordScheme at h
  rw [Bool.and_eq_true] at h
  obtain ⟨h1, h2⟩ := h
  refine ⟨l.takeWhile isWordChar, (l.dropWhile isWordChar).drop 3, ?_, ?_, ?_⟩
  · intro hc; rw [hc] at h1; simp at h1
  · intro c hc; exact List.mem_takeWhile_imp hc
  · have h3 : (l.dropWhile isWordChar).take 3 = pys "://" := eq_of_beq h2
    calc l = l.takeWhile isWordChar ++ l.dropWhile isWordChar :=
          (List.takeWhile_append_dropWhile (p := isWordChar) (l := l)).symm
    _ = l.takeWhile isWordChar ++ ((l.dropWhile isWordChar).take 3 ++
          (l.dropWhile isWordChar).drop 3) := by rw [List.take_append_drop]
    _ = l.takeWhile isWordChar ++ (pys "://" ++ (l.dropWhile isWordChar).drop 3) := by
          rw [h3]

/-- A non-empty normalization result always matches `^\w+://`. -/
theorem normalizeStr_scheme (s : PyStr) (hne : normalizeStr s ≠ []) :
    hasWordScheme (normalizeStr s) = true := by
  by_cases h0 : pyStrip (removeInvisible s) = []
  · exfalso
    apply hne
    unfold normalizeStr
    rw [if_pos h0, h0]
  · by_cases h1 : hasWordScheme (pyStrip (removeInvisible s)) = true
    · have ht : normalizeStr s = pyStrip (removeInvisible s) := by
        unfold normalizeStr; rw [if_neg h0, if_pos h1]
      rw [ht]; exact h1
    · have ht : normalizeStr s = pys "http://" ++ pyStrip (removeInvisible s) := by
        unfold normalizeStr; rw [if_neg h0, if_neg h1]
      rw [ht]; exact hasWordScheme_http _

/-- C8: `normalize_url` never raises — non-textual input yields the empty
string; a string whose cleaned form strips to empty yields the empty
string; every other input yields a string beginning with a
`\w+://` scheme prefix, with `http://` prepended exactly when the
cleaned, trimmed string lacked such a prefix; and
`normalize("example.com") = "http://example.com"`. -/
theorem normalize_url_spec :
    normalize_url .nonstr = [] ∧
    (∀ s : PyStr, pyStrip (removeInvisible s) = [] → normalize_url (.str s) = []) ∧
    (∀ s : PyStr, normalize_url (.str s) ≠ [] →
      ∃ w rest, w ≠ [] ∧ (∀ c ∈ w, isWordChar c = true) ∧
        normalize_url (.str s) = w ++ (pys "://" ++ rest)) ∧
    (∀ s : PyStr, pyStrip (removeInvisible s) ≠ [] →
      hasWordScheme (pyStrip (removeInvisible s)) = false →
      normalize_url (.str s) = pys "http://" ++ pyStrip (removeInvisible s)) ∧
    normalize_url (.str (pys "example.com")) = pys "http://example.com" := by
  refine ⟨rfl, ?_, ?_, ?_, by decide⟩
  · intro s h
    show normalizeStr s = []
    unfold normalizeStr
    rw [if_pos h, h]
  · intro s hne
    exact hasWordScheme_decomp _ (normalizeStr_scheme s hne)
  · intro s h0 h1
    show normalizeStr s = _
    unfold normalizeStr
    rw [if_neg h0, if_neg (by simp [h1])]

/-- Witness for C8: a whitespace-only string normalizes to empty; a
schemeless host gains `http://`; the scheme-prefix decomposition holds on
a concrete normalized value. -/
theorem normalize_url_spec_witness :
    normalize_url (.str (pys "  ")) = [] ∧
    (∃ w rest, w ≠ [] ∧ (∀ c ∈ w, isWordChar c = true) ∧
      normalize_url (.str (pys "example.com")) = w ++ (pys "://" ++ rest)) ∧
    normalize_url (.str (pys " example.com ")) = pys "http://example.com" :=
  ⟨normalize_url_spec.2.1 _ (by decide),
   normalize_url_spec.2.2.1 _ (by decide),
   (normalize_url_spec.2.2.2.1 (pys " example.com ") (by decide) (by decide)).trans
     (by decide)⟩

/-- C5: the trust test succeeds exactly when some trusted entry `e`
equals the processed host (lower-cased, one leading `www.` stripped) or is
a proper dot-separated suffix of it; `www.bank.com` is trusted for
`{bank.com}` while `evilbank.com` is not. -/
theorem trusted_domain_suffix_match :
    (∀ (host : PyStr) (trusted : List PyStr),
      trustedTest trusted host = true ↔
        ∃ e ∈ trusted, processHost host = e ∨ ('.' :: e) <:+ processHost host) ∧
    trustedTest [pys "bank.com"] (pys "www.bank.com") = true ∧
    trustedTest [pys "bank.com"] (pys "evilbank.com") = false := by
  refine ⟨?_, by decide, by decide⟩
  intro host trusted
  unfold trustedTest trustedMatch
  simp [List.any_eq_true]

/-- Witness for C5 at the two concrete hosts of the claim. -/
theorem trusted_domain_suffix_match_witness :
    trustedTest [pys "bank.com"] (pys "www.bank.com") = true ∧
    trustedTest [pys "bank.com"] (pys "evilbank.com") = false :=
  ⟨trusted_domain_suffix_match.2.1, trusted_domain_suffix_match.2.2⟩

/-- C4 counterexample: `postprocess_prediction` does not return a
decision for every url — on `http://[abc` the `urlparse` call raises
`ValueError` (mismatched bracket), modelled by `none`. -/
theorem postprocess_prediction_bad_bracket :
    postprocess_prediction [] (pys "http://[abc") 1 0 = none := by decide

/-- C4 (amended): for every url on which URL splitting succeeds, if the
url's host (lower-cased, leading `www.` stripped) matches the trusted
set, the decision is `(0, "safe", p, t, true)` with probability and
threshold passed through unchanged; otherwise `trusted = false` and the
predicted label is 1 exactly when `p ≥ t`, with the class name matching. -/
theorem postprocess_prediction_decision (trusted : List PyStr) (url : PyStr)
    (p t : ℚ) (pr : ParseResult) (h : urlparseAttempt url = some pr) :
    (trustedMatch trusted (stripWWW (pyLower pr.netloc)) = true →
      postprocess_prediction trusted url p t = some (0, "safe", p, t, true)) ∧
    (trustedMatch trusted (stripWWW (pyLower pr.netloc)) = false →
      postprocess_prediction trusted url p t =
        some (if p ≥ t then 1 else 0, if p ≥ t then "phishing" else "safe",
          p, t, false)) := by
  unfold postprocess_prediction
  rw [h]
  constructor
  · intro htr
    simp [htr]
  · intro htr
    by_cases hpt : p ≥ t
    · simp [htr, hpt]
    · simp [htr, hpt]

/-- Witness for C4 at a trusted and an untrusted concrete url. -/
theorem postprocess_prediction_decision_witness :
    postprocess_prediction [pys "bank.com"] (pys "http://www.bank.com/a") 0 1 =
      some (0, "safe", 0, 1, true) ∧
    postprocess_prediction [pys "bank.com"] (pys "http://evilbank.com") 1 0 =
      some (1, "phishing", 1, 0, false) := by
  constructor
  · exact (postprocess_prediction_decision [pys "bank.com"]
      (pys "http://www.bank.com/a") 0 1
      ⟨pys "http", pys "www.bank.com", pys "/a", [], [], []⟩ (by decide)).1 (by decide)
  · have h := (postprocess_prediction_decision [pys "bank.com"]
      (pys "http://evilbank.com") 1 0
      ⟨pys "http", pys "evilbank.com", [], [], [], []⟩ (by decide)).2 (by decide)
    exact h.trans (by decide)

/-- `splitCh` never returns the empty list. -/
theorem splitCh_ne_nil (c : Char) (l : PyStr) : splitCh c l ≠ [] := by
  cases l with
  | nil => simp [splitCh]
  | cons a t =>
    unfold splitCh
    cases splitCh c t with
    | nil => simp
    | cons g gs => cases h : (a == c) <;> simp [h]

/-- The number of chunks of a single-character split is the separator
count plus one. -/
theorem splitCh_length (c : Char) (l : PyStr) :
    (splitCh c l).length = l.count c + 1 := by
  induction l with
  | nil => rfl
  | cons a t ih =>
    unfold splitCh
    cases hsp : splitCh c t with
    | nil => exact absurd hsp (splitCh_ne_nil c t)
    | cons g gs =>
      have ihx : (g :: gs).length = t.count c + 1 := hsp ▸ ih
      simp only [List.length_cons] at ihx
      cases hac : (a == c) with
      | true =>
        simp [hac, List.count_cons]
        omega
      | false =>
        simp [hac, List.count_cons]
        omega

/-- C9 counterexample: at `http://example.com` the heuristic explainer's
`num_subdomains` value is 0, not `dot_count(host) - 2 = -1` as the claim
states. -/
theorem explain_num_subdomains_counterexample :
    explainDomain (pys "http://example.com") = some (pys "example.com") ∧
    (explainDomain (pys "http://example.com")).map numSubdomainsExplain = some 0 ∧
    (explainDomain (pys "http://example.com")).map numSubdomainsExplain ≠
      some (((pys "example.com").count '.' : ℤ) - 2) := by decide

/-- C9 (amended): for every URL whose parse succeeds, the explainer's
`num_subdomains` value equals `dot_count(host) - 1` (that is, the number
of dot-separated labels minus 2) when the processed host contains a dot
and 0 otherwise, and its color is green exactly when the value is at most
2, else red. -/
theorem explain_num_subdomains_eq (url d : PyStr)
    (h : explainDomain url = some d) :
    (explainDomain url).map numSubdomainsExplain =
      some (if d.contains '.' then (d.count '.' : ℤ) - 1 else 0) ∧
    (∀ v : ℤ, colorizeNumSubdomains v = if v ≤ 2 then "green" else "red") := by
  refine ⟨?_, fun v => rfl⟩
  rw [h]
  show some (numSubdomainsExplain d) = _
  unfold numSubdomainsExplain
  by_cases hd : d.contains '.' = true
  · rw [if_pos hd, if_pos hd, splitCh_length]
    congr 1
    push_cast
    ring
  · rw [if_neg hd, if_neg hd]

/-- Witness for C9 on `http://a.b.c.com`: three dots give the value 2. -/
theorem explain_num_subdomains_eq_witness :
    (explainDomain (pys "http://a.b.c.com")).map numSubdomainsExplain = some 2 := by
  have h := (explain_num_subdomains_eq (pys "http://a.b.c.com") (pys "a.b.c.com")
    (by decide)).1
  exact h.trans (by decide)

/-- UInt32 order reflects the order of the underlying naturals. -/
theorem uint32_le_iff_toNat {a b : UInt32} : a ≤ b ↔ a.toNat ≤ b.toNat := Iff.rfl

/-- A decimal digit has code point at most 57. -/
theorem isDigit_toNat_le (c : Char) (h : c.isDigit = true) : c.toNat ≤ 57 := by
  simp only [Char.isDigit, Bool.and_eq_true, decide_eq_true_eq, ge_iff_le] at h
  exact UInt32.toNat_le_of_le (by norm_num) h.2

/-- `toLower` fixes decimal digits. -/
theorem toLower_of_digit (c : Char) (h : c.isDigit = true) : c.toLower = c := by
  have h2 := isDigit_toNat_le c h
  simp only [Char.toLower]
  rw [if_neg]
  omega

/-- A character with code point at most 57 is not a Latin letter. -/
theorem isAlpha_false_of_small (c : Char) (h : c.toNat ≤ 57) : c.isAlpha = false := by
  cases hc : c.isAlpha with
  | false => rfl
  | true =>
    exfalso
    simp only [Char.isAlpha, Char.isUpper, Char.isLower, Bool.or_eq_true,
      Bool.and_eq_true, decide_eq_true_eq, ge_iff_le] at hc
    have e1 : c.val.toNat = c.toNat := rfl
    rcases hc with ⟨h1, _⟩ | ⟨h1, _⟩
    · rw [uint32_le_iff_toNat] at h1
      rw [show (65 : UInt32).toNat = 65 from rfl, e1] at h1
      omega
    · rw [uint32_le_iff_toNat] at h1
      rw [show (97 : UInt32).toNat = 97 from rfl, e1] at h1
      omega

/-- C10: whenever the parsed host (netloc) of the normalized URL is a
dotted-decimal IPv4 literal (non-empty, containing a dot, made only of
digits and dots), `is_plausible_url` returns `false` — the lowered host
contains no Latin letter — so the shared `/predict` and `/explain` guard
chain rejects the input with HTTP 400 before the classification pipeline
runs. -/
theorem ip_literal_guard_rejects (tlds : List PyStr) (x : PyValue)
    (pr : ParseResult) (hparse : urlparseAttempt (normalize_url x) = some pr)
    (hne : pr.netloc ≠ []) (hdot : pr.netloc.contains '.' = true)
    (hchars : ∀ c ∈ pr.netloc, c.isDigit = true ∨ c = '.') :
    is_plausible_url tlds (normalize_url x) = false ∧
    predictGuard tlds x = .rejected 400 := by
  have hdom : ∀ c ∈ pyLower pr.netloc, c.isDigit = true ∨ c = '.' := by
    intro c hc
    obtain ⟨a, ha, rfl⟩ := List.mem_map.mp hc
    rcases hchars a ha with h | h
    · left; rw [toLower_of_digit a h]; exact h
    · right; rw [h]; decide
  have hany : (pyLower pr.netloc).any Char.isAlpha = false := by
    rw [List.any_eq_false]
    intro c hc
    rcases hdom c hc with h | h
    · simp [isAlpha_false_of_small c (isDigit_toNat_le c h)]
    · rw [h]; decide
  have hplaus : is_plausible_url tlds (normalize_url x) = false := by
    simp only [is_plausible_url, hparse]
    split
    · rfl
    · split
      · rfl
      · exact hany
  refine ⟨hplaus, ?_⟩
  unfold predictGuard
  by_cases hg1 : pyStrip (normalize_url x) = []
  · rw [if_pos hg1]
  · rw [if_neg hg1]
    by_cases hg2 : is_valid_url_or_ip (normalize_url x) = true
    · rw [if_neg (by simp [hg2]), if_pos (by simp [hplaus])]
    · rw [if_pos (by simp at hg2; simp [hg2])]

/-- Witness for C10: `http://192.168.0.1/login` is rejected. -/
theorem ip_literal_guard_rejects_witness :
    is_plausible_url [pys "com"]
      (normalize_url (.str (pys "http://192.168.0.1/login"))) = false ∧
    predictGuard [pys "com"] (.str (pys "http://192.168.0.1/login")) =
      .rejected 400 :=
  ip_literal_guard_rejects [pys "com"] (.str (pys "http://192.168.0.1/login"))
    ⟨pys "http", pys "192.168.0.1", pys "/login", [], [], []⟩
    (by decide) (by decide) (by decide) (by decide)

/-- C3 counterexample: a single bare URL string is not accepted by the
extractor — `X['url']` on a `str` raises `TypeError`, modelled by `none`,
so no feature row is produced for it. -/
theorem transform_rejects_single_string :
    transform (.pystr (pys "http://example.com")) = none := rfl

/-- C3 (amended): for every accepted input (a homogeneous sequence of URL
strings given as a list/array/Series, or a DataFrame's `url` column),
`transform` produces one row per URL carrying exactly the 14 named fields
in the fixed `feature_names_` column order. -/
theorem transform_feature_columns (X : XInput)
    (rows : List (List (String × PyNum))) (h : transform X = some rows) :
    feature_names.length = 14 ∧
    ∀ row ∈ rows, row.map Prod.fst = feature_names := by
  refine ⟨rfl, ?_⟩
  intro row hrow
  have hm : ∃ urls : List PyStr, rows = urls.map featureRow := by
    cases X with
    | pystr s => exact Option.noConfusion h
    | seq urls => exact ⟨urls, (Option.some.inj h).symm⟩
    | frame urls => exact ⟨urls, (Option.some.inj h).symm⟩
  obtain ⟨urls, rfl⟩ := hm
  obtain ⟨u, hu, rfl⟩ := List.mem_map.mp hrow
  unfold featureRow
  rw [List.map_map]
  have h1 : (Prod.fst ∘ fun n : String =>
      (n, ((rawFeatureDict u).lookup n).getD (PyNum.float 0))) = id := rfl
  rw [h1, List.map_id]

/-- Witness for C3: a one-element sequence is accepted and its row has
the 14 columns in order. -/
theorem transform_feature_columns_witness :
    ∃ rows, transform (.seq [pys "http://example.com"]) = some rows ∧
      (feature_names.length = 14 ∧
        ∀ row ∈ rows, row.map Prod.fst = feature_names) :=
  ⟨[featureRow (pys "http://example.com")], rfl,
   transform_feature_columns (.seq [pys "http://example.com"]) _ rfl⟩

/-- A list of non-positive reals has non-positive sum. -/
theorem list_sum_nonpos (l : List ℝ) (h : ∀ x ∈ l, x ≤ 0) : l.sum ≤ 0 := by
  induction l with
  | nil => simp
  | cons a t ih =>
    rw [List.sum_cons]
    have ha := h a (by simp)
    have ht := ih (fun x hx => h x (by simp [hx]))
    linarith

/-- A sum over the distinct characters of `s` equals the sum over its
deduplicated character list. -/
theorem sum_toFinset_eq_dedup (s : PyStr) (f : Char → ℝ) :
    ∑ c ∈ s.toFinset, f c = (s.dedup.map f).sum := by
  rw [← List.sum_toFinset f (List.nodup_dedup s)]
  congr 1
  rw [List.toFinset_eq_iff_perm_dedup, List.dedup_idem]

/-- C6: `shannon_entropy` is non-negative, zero on the empty string,
equals `-Σ p(c) · log2 p(c)` over the distinct characters with
`p(c) = count(c)/len(s)`, is zero on the one-letter string `aaaa`, and
equals 1 on `ab`. -/
theorem shannon_entropy_spec :
    (∀ s : PyStr, 0 ≤ shannon_entropy s) ∧
    shannon_entropy [] = 0 ∧
    (∀ s : PyStr, shannon_entropy s =
      -∑ c ∈ s.toFinset, ((s.count c : ℝ) / (s.length : ℝ)) *
        Real.logb 2 ((s.count c : ℝ) / (s.length : ℝ))) ∧
    shannon_entropy (pys "aaaa") = 0 ∧
    shannon_entropy (pys "ab") = 1 := by
  have hforms : ∀ s : PyStr, s ≠ [] → shannon_entropy s =
      -((s.dedup.map (fun c => ((s.count c : ℝ) / (s.length : ℝ)) *
        Real.logb 2 ((s.count c : ℝ) / (s.length : ℝ)))).sum) := by
    intro s hs; unfold shannon_entropy; rw [if_neg hs]
  refine ⟨?_, rfl, ?_, ?_, ?_⟩
  · intro s
    by_cases hs : s = []
    · subst hs; simp [shannon_entropy]
    · rw [hforms s hs]
      apply neg_nonneg.mpr
      apply list_sum_nonpos
      intro x hx
      obtain ⟨c, hc, rfl⟩ := List.mem_map.mp hx
      have hlen : 0 < (s.length : ℝ) := by
        have := List.length_pos.mpr hs
        exact_mod_cast this
      have hp0 : 0 ≤ (s.count c : ℝ) / (s.length : ℝ) := by positivity
      have hp1 : (s.count c : ℝ) / (s.length : ℝ) ≤ 1 := by
        rw [div_le_one hlen]
        exact_mod_cast List.count_le_length c s
      have hlog : Real.logb 2 ((s.count c : ℝ) / (s.length : ℝ)) ≤ 0 :=
        Real.logb_nonpos (by norm_num) hp0 hp1
      exact mul_nonpos_iff.mpr (Or.inl ⟨hp0, hlog⟩)
  · intro s
    by_cases hs : s = []
    · subst hs; simp [shannon_entropy]
    · rw [hforms s hs, sum_toFinset_eq_dedup]
  · rw [hforms _ (by decide)]
    rw [show (pys "aaaa").dedup = ['a'] from by decide]
    simp only [List.map_cons, List.map_nil, List.sum_cons, List.sum_nil]
    rw [show (pys "aaaa").count 'a' = 4 from by decide,
        show (pys "aaaa").length = 4 from by decide]
    push_cast
    rw [div_self (by norm_num : (4:ℝ) ≠ 0), Real.logb_one]
    ring
  · rw [hforms _ (by decide)]
    rw [show (pys "ab").dedup = ['a', 'b'] from by decide]
    simp only [List.map_cons, List.map_nil, List.sum_cons, List.sum_nil]
    rw [show (pys "ab").count 'a' = 1 from by decide,
        show (pys "ab").count 'b' = 1 from by decide,
        show (pys "ab").length = 2 from by decide]
    push_cast
    rw [show (1:ℝ)/2 = (2:ℝ)⁻¹ from by norm_num, Real.logb_inv,
        Real.logb_self_eq_one (by norm_num)]
    ring
